import Mathlib

/-!
Verification of the CNC-lathe trainer's core simulation engine.

This file shallowly embeds the engine of the repository:
* the G-code parser `parseGCode` (src/services/gcodeParser.ts), and
* the interpreter fold of the `Simulator` component
  (src/components/Simulator.tsx, the effect at lines 90-206 of the current
  revision), which replays parsed commands `0..currentLine` into a
  `SimulationState`.

JavaScript numbers are modelled as `ℚ` (every numeral the parser can produce
is a finite decimal fraction).  JavaScript string operations on numbers
(`toString` / `substring` / `parseInt` in the tool-change logic) are modelled
by the arithmetically equivalent digit manipulations, documented at the
definition.  Record fields keep the source names wherever Lean allows.
-/

/-- `MachineState` from src/types.ts. -/
inductive MachineState where
  | IDLE | RUNNING | PAUSED | ALARM
deriving DecidableEq

/-- The `type` field of a parsed command, `'G' | 'M' | 'T' | 'S' | 'F' | 'COMMENT'`
from src/types.ts (`GCodeCommand.type`). -/
inductive CmdType where
  | G | M | T | S | F | COMMENT
deriving DecidableEq

/-- `'CW' | 'CCW' | 'STOP'` spindle-direction union from src/types.ts. -/
inductive SpindleDir where
  | CW | CCW | STOP
deriving DecidableEq

/-- `'OFF' | 'MIST' | 'FLOOD'` coolant union from src/types.ts. -/
inductive CoolantMode where
  | OFF | MIST | FLOOD
deriving DecidableEq

/-- `'OFF' | 'LEFT' | 'RIGHT'` radius-compensation union from src/types.ts. -/
inductive RadiusComp where
  | OFF | LEFT | RIGHT
deriving DecidableEq

/-- `'ABS' | 'INC'` positioning union from src/types.ts. -/
inductive PosMode where
  | ABS | INC
deriving DecidableEq

/-- `'cut' | 'rapid'` motion classification of a path point. -/
inductive MotionType where
  | cut | rapid
deriving DecidableEq

/-- One entry of `SimulationState.path`:
`{ x: number; z: number; cx?: number; cz?: number; type: 'cut' | 'rapid' }`
(src/types.ts).  The optional compensated coordinates are `Option ℚ`,
`none` meaning the field is absent (`undefined`). -/
structure PathPoint where
  x : ℚ
  z : ℚ
  cx : Option ℚ := none
  cz : Option ℚ := none
  type : MotionType
deriving DecidableEq

/-- `GCodeCommand` from src/types.ts.  `params` is the
`Record<string, number>` mapping parameter letters to numbers, kept as an
association list in which each letter occurs at most once (the assignment
`params[letter] = value` overwrites, see `setParam`). -/
structure GCodeCommand where
  type : CmdType
  code : Option ℚ := none
  params : List (Char × ℚ) := []
  raw : String := ""
  line : ℕ := 0
deriving DecidableEq

/-- The fields of `ToolConfig` (src/types.ts) that the engine reads. -/
structure ToolConfig where
  id : ℚ
  width : ℚ
  lengthOffset : ℚ
  noseRadius : ℚ
  wear : ℚ
deriving DecidableEq

/-- `SimulationState` from src/types.ts. -/
structure SimulationState where
  x : ℚ
  z : ℚ
  feedRate : ℚ
  spindleSpeed : ℚ
  spindleDirection : SpindleDir
  tool : ℚ
  activeToolOffset : ℚ
  toolRadiusComp : RadiusComp
  positioningMode : PosMode
  coolant : CoolantMode
  path : List PathPoint
deriving DecidableEq

/-- The manual spindle override prop `{dir, speed}` of the Simulator. -/
structure ManualSpindle where
  dir : SpindleDir
  speed : ℚ
deriving DecidableEq

/-- The data carried by the `onError` message on failed G-code validation:
`Error Sintaxis: G<code> no soportado en línea <line>`. -/
structure SimError where
  gcode : ℚ
  line : ℕ
deriving DecidableEq

/-- The tool table `TOOLS` from src/constants.ts (engine-relevant fields). -/
def TOOLS : List ToolConfig :=
  [ { id := 1, width := 2, lengthOffset := 5.5, noseRadius := 0.8, wear := 0 },
    { id := 2, width := 3, lengthOffset := 3.0, noseRadius := 0.2, wear := 0 },
    { id := 3, width := 1, lengthOffset := 8.2, noseRadius := 0.1, wear := 0 } ]

/-! ### Parser (src/services/gcodeParser.ts, `parseGCode`) -/

/-- ASCII whitespace relevant to `trim` / `\s` within a single line. -/
def isSpaceChar (c : Char) : Bool := c == ' ' || c == '\t' || c == '\r'

/-- `String.prototype.trim`. -/
def trimChars (cs : List Char) : List Char :=
  ((cs.dropWhile isSpaceChar).reverse.dropWhile isSpaceChar).reverse

/-- `code.split('\n')`. -/
def splitLines : List Char → List (List Char)
  | [] => [[]]
  | c :: rest =>
      if c = '\n' then [] :: splitLines rest
      else
        match splitLines rest with
        | [] => [[c]]
        | l :: ls => (c :: l) :: ls

/-- Digits to the natural number they denote, most significant first. -/
def natOfDigits (ds : List Char) : ℕ :=
  ds.foldl (fun n c => n * 10 + (c.toNat - '0'.toNat)) 0

/-- Splits an optional leading sign character off a character list
(the `[-+]?` part of the token pattern and of `parseFloat`). -/
def stripSign (cs : List Char) : List Char × List Char :=
  match cs with
  | c :: r => if c = '-' ∨ c = '+' then ([c], r) else ([], cs)
  | [] => ([], [])

/-- `parseFloat` on the numeric strings arising from the token pattern: an
optional sign, then digits with at most one decimal point; trailing
characters after the parsed number are ignored.  `none` models `NaN`
(no number could be parsed). -/
def parseNum (cs : List Char) : Option ℚ :=
  let cs1 := (stripSign cs).2
  let d1 := cs1.takeWhile Char.isDigit
  let cs2 := cs1.dropWhile Char.isDigit
  let base : Option ℚ :=
    if cs2.head? = some '.' then
      let d2 := cs2.tail.takeWhile Char.isDigit
      if d1 = [] ∧ d2 = [] then none
      else some ((natOfDigits d1 : ℚ) + (natOfDigits d2 : ℚ) / 10 ^ d2.length)
    else if d1 = [] then none else some ((natOfDigits d1 : ℚ))
  base.map (fun v => if (stripSign cs).1 = ['-'] then -v else v)

/-- One attempt at the numeric part `[-+]?[0-9]*\.?[0-9]+` of the token
regex `([A-Z])([-+]?[0-9]*\.?[0-9]+)`, with the regex's greedy and
backtracking behaviour: the match ends after the last digit consumed and a
decimal point is only consumed when at least one digit follows it.
Returns the matched characters and the unconsumed rest, `none` when the
pattern cannot match here. -/
def matchNum (cs : List Char) : Option (List Char × List Char) :=
  let sgn := (stripSign cs).1
  let cs1 := (stripSign cs).2
  let d1 := cs1.takeWhile Char.isDigit
  let cs2 := cs1.dropWhile Char.isDigit
  if cs2.head? = some '.' then
    let d2 := cs2.tail.takeWhile Char.isDigit
    let cs4 := cs2.tail.dropWhile Char.isDigit
    if d2 = [] then
      if d1 = [] then none else some (sgn ++ d1, cs2)
    else some (sgn ++ d1 ++ '.' :: d2, cs4)
  else if d1 = [] then none else some (sgn ++ d1, cs2)

lemma length_dropWhile_le (p : Char → Bool) (l : List Char) :
    (l.dropWhile p).length ≤ l.length := by
  induction l with
  | nil => simp [List.dropWhile]
  | cons c cs ih =>
      by_cases h : p c
      · simp only [List.dropWhile, h]
        simp only [List.length_cons]
        omega
      · simp [List.dropWhile, h]

lemma length_dropWhile_lt (p : Char → Bool) (l : List Char)
    (h : l.takeWhile p ≠ []) : (l.dropWhile p).length < l.length := by
  cases l with
  | nil => simp [List.takeWhile] at h
  | cons c cs =>
      by_cases hc : p c
      · simp only [List.dropWhile, hc]
        have := length_dropWhile_le p cs
        simp only [List.length_cons]
        omega
      · simp [List.takeWhile, hc] at h

lemma stripSign_snd_length (cs : List Char) :
    (stripSign cs).2.length ≤ cs.length := by
  cases cs with
  | nil => simp [stripSign]
  | cons c r =>
      by_cases h : c = '-' ∨ c = '+' <;> simp [stripSign, h]

lemma matchNum_rest_length {cs m r : List Char}
    (h : matchNum cs = some (m, r)) : r.length < cs.length := by
  have h1 := stripSign_snd_length cs
  simp only [matchNum] at h
  rcases hD : (stripSign cs).2.dropWhile Char.isDigit with _ | ⟨d, cs3⟩
  · rw [hD] at h
    rw [if_neg (by simp)] at h
    by_cases hd1 : (stripSign cs).2.takeWhile Char.isDigit = []
    · rw [if_pos hd1] at h
      exact absurd h (by simp)
    · rw [if_neg hd1] at h
      simp only [Option.some.injEq, Prod.mk.injEq] at h
      obtain ⟨-, hr⟩ := h
      subst hr
      have hne : (stripSign cs).2 ≠ [] := fun hnil => hd1 (by simp [hnil])
      have hpos : 1 ≤ (stripSign cs).2.length := by
        cases hx : (stripSign cs).2 with
        | nil => exact absurd hx hne
        | cons a b => simp [hx]
      simp only [List.length_nil]
      omega
  · rw [hD] at h
    by_cases hdot : d = '.'
    · subst hdot
      rw [if_pos (by simp)] at h
      simp only [List.tail_cons] at h
      by_cases hd2 : cs3.takeWhile Char.isDigit = []
      · rw [if_pos hd2] at h
        by_cases hd1 : (stripSign cs).2.takeWhile Char.isDigit = []
        · rw [if_pos hd1] at h
          exact absurd h (by simp)
        · rw [if_neg hd1] at h
          simp only [Option.some.injEq, Prod.mk.injEq] at h
          obtain ⟨-, hr⟩ := h
          subst hr
          have hlt := length_dropWhile_lt Char.isDigit (stripSign cs).2 hd1
          rw [hD] at hlt
          simp only [List.length_cons] at hlt ⊢
          omega
      · rw [if_neg hd2] at h
        simp only [Option.some.injEq, Prod.mk.injEq] at h
        obtain ⟨-, hr⟩ := h
        subst hr
        have hDlen : cs3.length + 1 ≤ (stripSign cs).2.length := by
          have := length_dropWhile_le Char.isDigit (stripSign cs).2
          rw [hD] at this
          simpa using this
        have h3 := length_dropWhile_le Char.isDigit cs3
        omega
    · rw [if_neg (by simp [hdot])] at h
      by_cases hd1 : (stripSign cs).2.takeWhile Char.isDigit = []
      · rw [if_pos hd1] at h
        exact absurd h (by simp)
      · rw [if_neg hd1] at h
        simp only [Option.some.injEq, Prod.mk.injEq] at h
        obtain ⟨-, hr⟩ := h
        subst hr
        have hlt := length_dropWhile_lt Char.isDigit (stripSign cs).2 hd1
        rw [hD] at hlt
        simp only [List.length_cons] at hlt ⊢
        omega

/-- The global scan of the token regex `([A-Z])([-+]?[0-9]*\.?[0-9]+)` over
the whitespace-free line content (`content.match(/.../g)`): at each
position, a letter `A`–`Z` followed by a numeric part yields a token and the
scan resumes after it; otherwise the scan advances one character.  The
`fuel` argument only bounds the recursion: every step consumes at least one
input character (`matchNum_rest_length`), so `tokenizeF` with fuel
`cs.length` performs the full scan (`tokenizeF_fuel`). -/
def tokenizeF : ℕ → List Char → List (Char × List Char)
  | 0, _ => []
  | _, [] => []
  | fuel + 1, c :: rest =>
      if 'A' ≤ c ∧ c ≤ 'Z' then
        match matchNum rest with
        | some (m, r) => (c, m) :: tokenizeF fuel r
        | none => tokenizeF fuel rest
      else tokenizeF fuel rest

/-- The token scan of `parseGCode` (see `tokenizeF`). -/
def tokenize (cs : List Char) : List (Char × List Char) :=
  tokenizeF cs.length cs

/-- The fuel of `tokenizeF` is irrelevant once it covers the input length,
so `tokenize` is the untruncated scan. -/
lemma tokenizeF_fuel :
    ∀ (fuel fuel' : ℕ) (cs : List Char), cs.length ≤ fuel → cs.length ≤ fuel' →
      tokenizeF fuel cs = tokenizeF fuel' cs := by
  intro fuel
  induction fuel with
  | zero =>
      intro fuel' cs h h'
      have : cs = [] := List.length_eq_zero.mp (Nat.le_zero.mp h)
      subst this
      cases fuel' <;> rfl
  | succ n ih =>
      intro fuel' cs h h'
      cases cs with
      | nil => cases fuel' <;> rfl
      | cons c rest =>
          cases fuel' with
          | zero => exact absurd h' (by simp)
          | succ n' =>
              simp only [tokenizeF]
              have hrest : rest.length ≤ n := by
                simp only [List.length_cons] at h
                omega
              have hrest' : rest.length ≤ n' := by
                simp only [List.length_cons] at h'
                omega
              by_cases hc : 'A' ≤ c ∧ c ≤ 'Z'
              · rw [if_pos hc, if_pos hc]
                cases hm : matchNum rest with
                | none => exact ih n' rest hrest hrest'
                | some p =>
                    obtain ⟨m, r⟩ := p
                    have hr := matchNum_rest_length hm
                    show (c, m) :: tokenizeF n r = (c, m) :: tokenizeF n' r
                    rw [ih n' r (by omega) (by omega)]
              · rw [if_neg hc, if_neg hc]
                exact ih n' rest hrest hrest'

/-- Reads `params[letter]` (association-list lookup). -/
def getParam : List (Char × ℚ) → Char → Option ℚ
  | [], _ => none
  | p :: ps, c => if p.1 = c then some p.2 else getParam ps c

/-- Writes `params[letter] = value`: overwrites an existing entry for the
letter, otherwise appends a new one. -/
def setParam (ps : List (Char × ℚ)) (c : Char) (v : ℚ) : List (Char × ℚ) :=
  if ps.any (fun p => p.1 == c) then
    ps.map (fun p => if p.1 == c then (c, v) else p)
  else ps ++ [(c, v)]

/-- Is the letter one of the command-class letters `{G, M, T}`? -/
def cmdLetter (c : Char) : Bool := c == 'G' || c == 'M' || c == 'T'

/-- Command class assigned for a command letter. -/
def typeOfLetter (c : Char) : CmdType :=
  if c = 'M' then .M else if c = 'T' then .T else .G

/-- The token-grouping loop inside `parseGCode`: accumulates parameters into
the current command, and on a second command-class letter flushes the
current command and starts a new one (`hasExplicitType` flag).  The final
accumulated command is always emitted. -/
def buildCmds : List (Char × List Char) → GCodeCommand → Bool → List GCodeCommand
  | [], cur, _ => [cur]
  | (letter, num) :: rest, cur, hasType =>
      let value := (parseNum num).getD 0
      if cmdLetter letter then
        if hasType then
          cur :: buildCmds rest
            { type := typeOfLetter letter, code := some value, params := [],
              raw := cur.raw, line := cur.line } true
        else
          buildCmds rest
            { cur with type := typeOfLetter letter, code := some value } true
      else
        buildCmds rest { cur with params := setParam cur.params letter value } hasType

/-- Processing of one source line of `parseGCode`: trim and upper-case,
strip a `(`-comment and then a `;`-comment, drop empty lines, remove all
whitespace, tokenize, and group tokens into commands (a line with no tokens
emits nothing).  `idx` is the 0-based line index; emitted commands carry the
1-based line number. -/
def parseLine (idx : ℕ) (raw : List Char) : List GCodeCommand :=
  let clean0 := (trimChars raw).map Char.toUpper
  let clean1 := trimChars (clean0.takeWhile (fun c => c ≠ '('))
  let clean2 := trimChars (clean1.takeWhile (fun c => c ≠ ';'))
  if clean2 = [] then []
  else
    let content := clean2.filter (fun c => ¬ isSpaceChar c)
    match tokenize content with
    | [] => []
    | t :: ts =>
        buildCmds (t :: ts)
          { type := .G, code := none, params := [], raw := String.mk raw, line := idx + 1 }
          false

/-- `parseGCode` from src/services/gcodeParser.ts: split the program text
into lines and parse each line into zero or more commands. -/
def parseGCode (text : String) : List GCodeCommand :=
  ((splitLines text.data).enum.map (fun p => parseLine p.1 p.2)).flatten

/-! ### Interpreter (src/components/Simulator.tsx, interpreter effect) -/

/-- `VALID_G_CODES` from src/components/Simulator.tsx line 34. -/
def VALID_G_CODES : List ℚ :=
  [0, 1, 2, 3, 4, 20, 21, 28, 32, 33, 40, 41, 42, 43, 44, 49, 50,
   70, 71, 72, 73, 74, 75, 76, 90, 91, 96, 97, 98, 99]

/-- The interpreter's loop variables (`tempX`, `tempZ`, `tempS`, `tempTool`,
`tempSpindleDir`, `tempOffset`, `tempRadiusComp`, `tempPositioning`,
`tempCoolant`, `newPath`). -/
structure TempState where
  x : ℚ
  z : ℚ
  s : ℚ
  tool : ℚ
  spindleDir : SpindleDir
  offset : ℚ
  radiusComp : RadiusComp
  positioning : PosMode
  coolant : CoolantMode
  path : List PathPoint
deriving DecidableEq

/-- Initial loop variables of every replay (Simulator.tsx lines 127-136). -/
def initTemp : TempState :=
  { x := 100, z := 50, s := 0, tool := 1, spindleDir := .STOP, offset := 0,
    radiusComp := .OFF, positioning := .ABS, coolant := .OFF, path := [] }

/-- Modal G-code handling (Simulator.tsx lines 149-159): G90/G91 set the
positioning mode, G43 with an `H` parameter looks the tool up and applies
its length offset (G49 clears it), G40/G41/G42 set radius compensation. -/
def applyModalG (tools : List ToolConfig) (st : TempState) (cmd : GCodeCommand) : TempState :=
  if cmd.type = .G then
    let st :=
      if cmd.code = some 90 then { st with positioning := .ABS }
      else if cmd.code = some 91 then { st with positioning := .INC }
      else st
    let st :=
      if cmd.code = some 43 ∧ (getParam cmd.params 'H').isSome then
        match tools.find? (fun t => t.id == (getParam cmd.params 'H').getD 0) with
        | some t => { st with offset := t.lengthOffset }
        | none => st
      else if cmd.code = some 49 then { st with offset := 0 }
      else st
    let st :=
      if cmd.code = some 40 then { st with radiusComp := .OFF }
      else if cmd.code = some 41 then { st with radiusComp := .LEFT }
      else if cmd.code = some 42 then { st with radiusComp := .RIGHT }
      else st
    st
  else st

/-- Axis-word handling (Simulator.tsx lines 161-164): `X`/`Z` are absolute
or incremental according to the positioning mode; `U`/`W` are always added
as increments, after `X`/`Z`. -/
def applyAxes (st : TempState) (cmd : GCodeCommand) : TempState :=
  let st :=
    match getParam cmd.params 'X' with
    | some vx => { st with x := if st.positioning = .ABS then vx else st.x + vx }
    | none => st
  let st :=
    match getParam cmd.params 'U' with
    | some vu => { st with x := st.x + vu }
    | none => st
  let st :=
    match getParam cmd.params 'Z' with
    | some vz => { st with z := if st.positioning = .ABS then vz else st.z + vz }
    | none => st
  let st :=
    match getParam cmd.params 'W' with
    | some vw => { st with z := st.z + vw }
    | none => st
  st

/-- Spindle-speed handling (Simulator.tsx lines 167-169): any `S` parameter
sets the speed unless it sits on a `G50` statement. -/
def applySpeed (st : TempState) (cmd : GCodeCommand) : TempState :=
  match getParam cmd.params 'S' with
  | some vs => if ¬(cmd.type = .G ∧ cmd.code = some 50) then { st with s := vs } else st
  | none => st

/-- Fuel-bounded helper for `leadTwo`; each step divides a number `≥ 100`
by 10, so fuel `n` always suffices. -/
def leadTwoAux : ℕ → ℕ → ℕ
  | 0, n => n
  | fuel + 1, n => if n < 100 then n else leadTwoAux fuel (n / 10)

/-- The leading two decimal digits of `n` (the number denoted by the first
two characters of `n`'s decimal string), for `n ≥ 10`. -/
def leadTwo (n : ℕ) : ℕ := leadTwoAux n n

/-- Fuel-bounded helper for `leadDigit`. -/
def leadDigitAux : ℕ → ℕ → ℕ
  | 0, n => n
  | fuel + 1, n => if n < 10 then n else leadDigitAux fuel (n / 10)

/-- The leading decimal digit of `n`. -/
def leadDigit (n : ℕ) : ℕ := leadDigitAux n n

/-- Tool-id extraction (Simulator.tsx lines 171-176):
`const toolIdStr = cmd.code.toString(); let id = parseInt(toolIdStr);
if (toolIdStr.length >= 2) id = parseInt(toolIdStr.substring(0, 2));`.
Modelled arithmetically on the code's value: for `q ≥ 0`,
`parseInt` of the first two characters of `q`'s decimal string is the
integer part itself when it has a single digit (the second character is
either absent or the decimal point) and otherwise the number formed by its
two leading digits; for `q < 0` the two characters are `-` followed by the
leading digit of the integer part. -/
def toolIdOfCode (q : ℚ) : ℤ :=
  if 0 ≤ q then
    let p := (⌊q⌋).toNat
    if p < 10 then (p : ℤ) else (leadTwo p : ℤ)
  else -(leadDigit (⌊-q⌋).toNat : ℤ)

/-- Tool-change handling (Simulator.tsx lines 171-176): only runs when
`cmd.code` is truthy (present and non-zero), and updates the tool only when
the extracted id is strictly positive. -/
def applyTool (st : TempState) (cmd : GCodeCommand) : TempState :=
  match cmd.type, cmd.code with
  | .T, some c =>
      if c ≠ 0 then
        if 0 < toolIdOfCode c then { st with tool := ((toolIdOfCode c : ℤ) : ℚ) } else st
      else st
  | _, _ => st

/-- M-code handling (Simulator.tsx lines 178-185): spindle M3/M4/M5 and
coolant M7/M8/M9. -/
def applyM (st : TempState) (cmd : GCodeCommand) : TempState :=
  if cmd.type = .M then
    if cmd.code = some 3 then { st with spindleDir := .CW }
    else if cmd.code = some 4 then { st with spindleDir := .CCW }
    else if cmd.code = some 5 then { st with spindleDir := .STOP }
    else if cmd.code = some 7 then { st with coolant := .MIST }
    else if cmd.code = some 8 then { st with coolant := .FLOOD }
    else if cmd.code = some 9 then { st with coolant := .OFF }
    else st
  else st

/-- Motion classification (Simulator.tsx lines 187-190): `cut` exactly for
G-statements with code 1, 2, 3, 32, 33, 71, 72, 74, 75 or 76, otherwise
`rapid`. -/
def motionType (cmd : GCodeCommand) : MotionType :=
  if cmd.type = .G ∧ (cmd.code = some 1 ∨ cmd.code = some 2 ∨ cmd.code = some 3 ∨
      cmd.code = some 32 ∨ cmd.code = some 33 ∨ cmd.code = some 71 ∨
      cmd.code = some 72 ∨ cmd.code = some 74 ∨ cmd.code = some 75 ∨
      cmd.code = some 76) then .cut
  else .rapid

/-- JavaScript `cmd.code || -1`: yields `-1` when `cmd.code` is `undefined`
or `0` (zero is falsy), otherwise the code itself. -/
def jsOrNeg1 (c : Option ℚ) : ℚ :=
  match c with
  | none => -1
  | some v => if v = 0 then -1 else v

/-- Path appending (Simulator.tsx lines 192-194): a point is pushed when
`cmd.type === 'G' && [0,1,2,3,32,33].includes(cmd.code || -1)`. -/
def applyPath (st : TempState) (cmd : GCodeCommand) : TempState :=
  if cmd.type = .G ∧ jsOrNeg1 cmd.code ∈ ([0, 1, 2, 3, 32, 33] : List ℚ) then
    { st with path := st.path ++ [{ x := st.x, z := st.z, type := motionType cmd }] }
  else st

/-- The whole loop body for one command, after validation, in source order:
modal G handling, axis words, spindle speed, tool change, M codes, path
append. -/
def applyCmd (tools : List ToolConfig) (st : TempState) (cmd : GCodeCommand) : TempState :=
  applyPath (applyM (applyTool (applySpeed (applyAxes (applyModalG tools st cmd) cmd) cmd) cmd) cmd) cmd

/-- One loop iteration (Simulator.tsx lines 139-195): G-statements with a
defined code outside `VALID_G_CODES` raise the syntax error and stop the
replay; every other command is folded by `applyCmd`. -/
def stepCmd (tools : List ToolConfig) (st : TempState) (cmd : GCodeCommand) :
    Except SimError TempState :=
  match cmd.type, cmd.code with
  | .G, some c =>
      if c ∉ VALID_G_CODES then .error { gcode := c, line := cmd.line }
      else .ok (applyCmd tools st cmd)
  | _, _ => .ok (applyCmd tools st cmd)

/-- The interpreter fold over a command list. -/
def runCmds (tools : List ToolConfig) : List GCodeCommand → TempState → Except SimError TempState
  | [], st => .ok st
  | c :: cs, st =>
      match stepCmd tools st c with
      | .error e => .error e
      | .ok st' => runCmds tools cs st'

/-- Assembling the new `SimulationState` from the loop variables
(Simulator.tsx lines 197-201); `feedRate` is fixed at 0. -/
def mkSimState (t : TempState) : SimulationState :=
  { x := t.x, z := t.z, spindleSpeed := t.s, spindleDirection := t.spindleDir,
    activeToolOffset := t.offset, toolRadiusComp := t.radiusComp,
    positioningMode := t.positioning, path := t.path, tool := t.tool,
    feedRate := 0, coolant := t.coolant }

/-- The IDLE-mode state (Simulator.tsx lines 94-106): fixed home position,
manual spindle overrides, empty path. -/
def idleState (manual : ManualSpindle) : SimulationState :=
  { x := 100, z := 50, feedRate := 0,
    spindleSpeed := if manual.dir ≠ .STOP then manual.speed else 0,
    spindleDirection := manual.dir,
    tool := 1, activeToolOffset := 0, toolRadiusComp := .OFF,
    positioningMode := .ABS, coolant := .OFF, path := [] }

/-- The interpreter effect (Simulator.tsx lines 91-206): in ALARM mode
nothing is computed (`none`); in IDLE mode the manual-override state is
produced without replaying anything; otherwise, for a non-empty command
list, commands `0..min(currentLine, length-1)` are folded from the initial
loop variables.  `none` models "the effect returns without updating the
state". -/
def interpret (machineState : MachineState) (manual : ManualSpindle)
    (tools : List ToolConfig) (commands : List GCodeCommand) (currentLine : ℕ) :
    Option (Except SimError SimulationState) :=
  if machineState = .ALARM then none
  else if machineState = .IDLE then some (.ok (idleState manual))
  else if commands = [] then none
  else some ((runCmds tools (commands.take (currentLine + 1)) initTemp).map mkSimState)

deriving instance DecidableEq for Except

/-! ### Infrastructure lemmas about the fold -/

lemma applyModalG_fields (tools : List ToolConfig) (st : TempState) (cmd : GCodeCommand) :
    (applyModalG tools st cmd).x = st.x ∧ (applyModalG tools st cmd).z = st.z ∧
    (applyModalG tools st cmd).s = st.s ∧ (applyModalG tools st cmd).tool = st.tool ∧
    (applyModalG tools st cmd).spindleDir = st.spindleDir ∧
    (applyModalG tools st cmd).coolant = st.coolant ∧
    (applyModalG tools st cmd).path = st.path := by
  unfold applyModalG
  repeat' split
  all_goals simp

lemma applyAxes_fields (st : TempState) (cmd : GCodeCommand) :
    (applyAxes st cmd).s = st.s ∧ (applyAxes st cmd).tool = st.tool ∧
    (applyAxes st cmd).spindleDir = st.spindleDir ∧
    (applyAxes st cmd).offset = st.offset ∧
    (applyAxes st cmd).radiusComp = st.radiusComp ∧
    (applyAxes st cmd).positioning = st.positioning ∧
    (applyAxes st cmd).coolant = st.coolant ∧
    (applyAxes st cmd).path = st.path := by
  unfold applyAxes
  repeat' split
  all_goals simp

lemma applySpeed_fields (st : TempState) (cmd : GCodeCommand) :
    (applySpeed st cmd).x = st.x ∧ (applySpeed st cmd).z = st.z ∧
    (applySpeed st cmd).tool = st.tool ∧
    (applySpeed st cmd).spindleDir = st.spindleDir ∧
    (applySpeed st cmd).offset = st.offset ∧
    (applySpeed st cmd).radiusComp = st.radiusComp ∧
    (applySpeed st cmd).positioning = st.positioning ∧
    (applySpeed st cmd).coolant = st.coolant ∧
    (applySpeed st cmd).path = st.path := by
  unfold applySpeed
  repeat' split
  all_goals simp

lemma applyTool_fields (st : TempState) (cmd : GCodeCommand) :
    (applyTool st cmd).x = st.x ∧ (applyTool st cmd).z = st.z ∧
    (applyTool st cmd).s = st.s ∧
    (applyTool st cmd).spindleDir = st.spindleDir ∧
    (applyTool st cmd).offset = st.offset ∧
    (applyTool st cmd).radiusComp = st.radiusComp ∧
    (applyTool st cmd).positioning = st.positioning ∧
    (applyTool st cmd).coolant = st.coolant ∧
    (applyTool st cmd).path = st.path := by
  unfold applyTool
  repeat' split
  all_goals simp

lemma applyM_fields (st : TempState) (cmd : GCodeCommand) :
    (applyM st cmd).x = st.x ∧ (applyM st cmd).z = st.z ∧
    (applyM st cmd).s = st.s ∧ (applyM st cmd).tool = st.tool ∧
    (applyM st cmd).offset = st.offset ∧
    (applyM st cmd).radiusComp = st.radiusComp ∧
    (applyM st cmd).positioning = st.positioning ∧
    (applyM st cmd).path = st.path := by
  unfold applyM
  repeat' split
  all_goals simp

lemma applyPath_fields (st : TempState) (cmd : GCodeCommand) :
    (applyPath st cmd).x = st.x ∧ (applyPath st cmd).z = st.z ∧
    (applyPath st cmd).s = st.s ∧ (applyPath st cmd).tool = st.tool ∧
    (applyPath st cmd).spindleDir = st.spindleDir ∧
    (applyPath st cmd).offset = st.offset ∧
    (applyPath st cmd).radiusComp = st.radiusComp ∧
    (applyPath st cmd).positioning = st.positioning ∧
    (applyPath st cmd).coolant = st.coolant := by
  unfold applyPath
  repeat' split
  all_goals simp

/-- The path either stays unchanged or grows by exactly one point whose
`cx`/`cz` fields are absent. -/
lemma applyPath_path (st : TempState) (cmd : GCodeCommand) :
    (applyPath st cmd).path = st.path ∨
    ∃ pt : PathPoint, pt.cx = none ∧ pt.cz = none ∧
      (applyPath st cmd).path = st.path ++ [pt] := by
  unfold applyPath
  split
  · exact Or.inr ⟨_, rfl, rfl, rfl⟩
  · exact Or.inl rfl

lemma applyCmd_path (tools : List ToolConfig) (st : TempState) (cmd : GCodeCommand) :
    (applyCmd tools st cmd).path = st.path ∨
    ∃ pt : PathPoint, pt.cx = none ∧ pt.cz = none ∧
      (applyCmd tools st cmd).path = st.path ++ [pt] := by
  unfold applyCmd
  have h1 := (applyModalG_fields tools st cmd).2.2.2.2.2.2
  have h2 := (applyAxes_fields (applyModalG tools st cmd) cmd).2.2.2.2.2.2.2
  have h3 := (applySpeed_fields (applyAxes (applyModalG tools st cmd) cmd) cmd).2.2.2.2.2.2.2.2
  have h4 := (applyTool_fields (applySpeed (applyAxes (applyModalG tools st cmd) cmd) cmd) cmd).2.2.2.2.2.2.2.2
  have h5 := (applyM_fields (applyTool (applySpeed (applyAxes (applyModalG tools st cmd) cmd) cmd) cmd) cmd).2.2.2.2.2.2.2
  have h6 := applyPath_path (applyM (applyTool (applySpeed (applyAxes (applyModalG tools st cmd) cmd) cmd) cmd) cmd) cmd
  rw [h5, h4, h3, h2, h1] at h6
  exact h6

/-- A command is appending when the source's push condition
`cmd.type === 'G' && [0,1,2,3,32,33].includes(cmd.code || -1)` holds. -/
def appendsPoint (cmd : GCodeCommand) : Prop :=
  cmd.type = .G ∧ jsOrNeg1 cmd.code ∈ ([0, 1, 2, 3, 32, 33] : List ℚ)

lemma applyCmd_path_of_appends (tools : List ToolConfig) (st : TempState)
    (cmd : GCodeCommand) (h : appendsPoint cmd) :
    (applyCmd tools st cmd).path.length = st.path.length + 1 := by
  unfold applyCmd
  have h1 := (applyModalG_fields tools st cmd).2.2.2.2.2.2
  have h2 := (applyAxes_fields (applyModalG tools st cmd) cmd).2.2.2.2.2.2.2
  have h3 := (applySpeed_fields (applyAxes (applyModalG tools st cmd) cmd) cmd).2.2.2.2.2.2.2.2
  have h4 := (applyTool_fields (applySpeed (applyAxes (applyModalG tools st cmd) cmd) cmd) cmd).2.2.2.2.2.2.2.2
  have h5 := (applyM_fields (applyTool (applySpeed (applyAxes (applyModalG tools st cmd) cmd) cmd) cmd) cmd).2.2.2.2.2.2.2
  unfold applyPath
  rw [if_pos ⟨h.1, h.2⟩, h5, h4, h3, h2, h1]
  simp

/-- Validity of a command for the interpreter's G-code validation. -/
def validCmd (cmd : GCodeCommand) : Prop :=
  cmd.type = .G → ∀ c, cmd.code = some c → c ∈ VALID_G_CODES

lemma stepCmd_ok_of_valid (tools : List ToolConfig) (st : TempState)
    (cmd : GCodeCommand) (h : validCmd cmd) :
    stepCmd tools st cmd = .ok (applyCmd tools st cmd) := by
  unfold stepCmd
  rcases htype : cmd.type <;> rcases hcode : cmd.code <;> simp
  exact h htype _ hcode

lemma stepCmd_error_of_invalid (tools : List ToolConfig) (st : TempState)
    (cmd : GCodeCommand) (c : ℚ) (htype : cmd.type = .G) (hcode : cmd.code = some c)
    (hc : c ∉ VALID_G_CODES) :
    stepCmd tools st cmd = .error { gcode := c, line := cmd.line } := by
  simp [stepCmd, htype, hcode, hc]

/-- An appending command always passes validation: its code is one of
1, 2, 3, 32, 33, each of which is supported. -/
lemma appendsPoint_valid (cmd : GCodeCommand) (h : appendsPoint cmd) : validCmd cmd := by
  intro _ c hcode
  obtain ⟨-, hmem⟩ := h
  rw [hcode] at hmem
  simp only [jsOrNeg1] at hmem
  by_cases hc : c = 0
  · rw [if_pos hc] at hmem
    norm_num at hmem
  · rw [if_neg hc] at hmem
    simp only [List.mem_cons, List.not_mem_nil, or_false] at hmem
    rcases hmem with h | h | h | h | h | h <;>
      (subst h; first | exact absurd rfl hc | norm_num [VALID_G_CODES])

lemma runCmds_append (tools : List ToolConfig) (l1 l2 : List GCodeCommand) (st : TempState) :
    runCmds tools (l1 ++ l2) st =
      match runCmds tools l1 st with
      | .error e => .error e
      | .ok st' => runCmds tools l2 st' := by
  induction l1 generalizing st with
  | nil => simp [runCmds]
  | cons c cs ih =>
      simp only [List.cons_append, runCmds]
      cases stepCmd tools st c with
      | error e => rfl
      | ok st' => exact ih st'

/-- A successful step always produces the `applyCmd` state. -/
lemma stepCmd_ok_state (tools : List ToolConfig) (st : TempState)
    (cmd : GCodeCommand) (st1 : TempState) (h : stepCmd tools st cmd = .ok st1) :
    st1 = applyCmd tools st cmd := by
  unfold stepCmd at h
  rcases htype : cmd.type <;> rw [htype] at h <;>
    rcases hcode : cmd.code with _ | q <;> rw [hcode] at h
  all_goals try exact (Except.ok.inj h).symm
  have h2 : (if q ∉ VALID_G_CODES then
        (Except.error { gcode := q, line := cmd.line } : Except SimError TempState)
      else .ok (applyCmd tools st cmd)) = .ok st1 := h
  by_cases hq : q ∈ VALID_G_CODES
  · rw [if_neg (not_not_intro hq)] at h2
    exact (Except.ok.inj h2).symm
  · rw [if_pos hq] at h2
    exact absurd h2 (by simp)

/-- Along a successful replay the path only ever grows at the end, and
every point added has absent `cx`/`cz`. -/
lemma runCmds_path_extends (tools : List ToolConfig) :
    ∀ (l : List GCodeCommand) (st st' : TempState),
      runCmds tools l st = .ok st' →
      ∃ suffix : List PathPoint, st'.path = st.path ++ suffix ∧
        ∀ pt ∈ suffix, pt.cx = none ∧ pt.cz = none := by
  intro l
  induction l with
  | nil =>
      intro st st' h
      simp only [runCmds] at h
      cases h
      exact ⟨[], by simp⟩
  | cons c cs ih =>
      intro st st' h
      simp only [runCmds] at h
      cases hstep : stepCmd tools st c with
      | error e => rw [hstep] at h; cases h
      | ok st1 =>
          rw [hstep] at h
          obtain ⟨suffix, hsuf, hpts⟩ := ih st1 st' h
          have happ : st1.path = st.path ∨
              ∃ pt : PathPoint, pt.cx = none ∧ pt.cz = none ∧ st1.path = st.path ++ [pt] := by
            rw [stepCmd_ok_state tools st c st1 hstep]
            exact applyCmd_path tools st c
          rcases happ with heq | ⟨pt, hcx, hcz, heq⟩
          · exact ⟨suffix, by rw [hsuf, heq], hpts⟩
          · refine ⟨pt :: suffix, by rw [hsuf, heq]; simp, ?_⟩
            intro p hp
            rcases List.mem_cons.mp hp with hp | hp
            · subst hp; exact ⟨hcx, hcz⟩
            · exact hpts p hp

/-- Along a successful replay the path never shrinks, and it grows by one
point for every command in the replay that satisfies the push condition. -/
lemma runCmds_path_grows (tools : List ToolConfig) :
    ∀ (l : List GCodeCommand) (st st' : TempState),
      runCmds tools l st = .ok st' → (∃ c ∈ l, appendsPoint c) →
      st.path.length < st'.path.length := by
  intro l
  induction l with
  | nil =>
      intro st st' h hex
      simp at hex
  | cons c cs ih =>
      intro st st' h hex
      simp only [runCmds] at h
      cases hstep : stepCmd tools st c with
      | error e => rw [hstep] at h; cases h
      | ok st1 =>
          rw [hstep] at h
          have hst1 : st1 = applyCmd tools st c := stepCmd_ok_state tools st c st1 hstep
          rcases hex with ⟨d, hd, happd⟩
          rcases List.mem_cons.mp hd with rfl | hdtail
          · have hlen1 : st1.path.length = st.path.length + 1 := by
              rw [hst1]
              exact applyCmd_path_of_appends tools st d happd
            obtain ⟨suffix, hsuf, -⟩ := runCmds_path_extends tools cs st1 st' h
            rw [hsuf]
            simp only [List.length_append]
            omega
          · have hge : st.path.length ≤ st1.path.length := by
              rw [hst1]
              rcases applyCmd_path tools st c with heq | ⟨pt, -, -, heq⟩ <;> simp [heq]
            have := ih st1 st' h ⟨d, hdtail, happd⟩
            omega

/-- A command that fails the push condition leaves the path untouched. -/
lemma applyCmd_path_of_not_appends (tools : List ToolConfig) (st : TempState)
    (cmd : GCodeCommand) (h : ¬ appendsPoint cmd) :
    (applyCmd tools st cmd).path = st.path := by
  unfold applyCmd
  have h1 := (applyModalG_fields tools st cmd).2.2.2.2.2.2
  have h2 := (applyAxes_fields (applyModalG tools st cmd) cmd).2.2.2.2.2.2.2
  have h3 := (applySpeed_fields (applyAxes (applyModalG tools st cmd) cmd) cmd).2.2.2.2.2.2.2.2
  have h4 := (applyTool_fields (applySpeed (applyAxes (applyModalG tools st cmd) cmd) cmd) cmd).2.2.2.2.2.2.2.2
  have h5 := (applyM_fields (applyTool (applySpeed (applyAxes (applyModalG tools st cmd) cmd) cmd) cmd) cmd).2.2.2.2.2.2.2
  unfold appendsPoint at h
  unfold applyPath
  rw [if_neg h, h5, h4, h3, h2, h1]

/-- When no command of a successful replay satisfies the push condition the
path comes out exactly unchanged. -/
lemma runCmds_path_const (tools : List ToolConfig) :
    ∀ (l : List GCodeCommand) (st st' : TempState),
      runCmds tools l st = .ok st' → (∀ c ∈ l, ¬ appendsPoint c) →
      st'.path = st.path := by
  intro l
  induction l with
  | nil =>
      intro st st' h _
      simp only [runCmds] at h
      cases h
      rfl
  | cons c cs ih =>
      intro st st' h hnone
      simp only [runCmds] at h
      cases hstep : stepCmd tools st c with
      | error e => rw [hstep] at h; cases h
      | ok st1 =>
          rw [hstep] at h
          have hst1 : st1 = applyCmd tools st c := stepCmd_ok_state tools st c st1 hstep
          have htail := ih st1 st' h (fun d hd => hnone d (List.mem_cons_of_mem c hd))
          rw [htail, hst1]
          exact applyCmd_path_of_not_appends tools st c (hnone c (List.mem_cons_self c cs))

/-- If every command of a prefix is valid and the command after it is an
unsupported G-code, the fold stops there with that command's error. -/
lemma runCmds_error_prefix (tools : List ToolConfig) :
    ∀ (l1 : List GCodeCommand) (bad : GCodeCommand) (l2 : List GCodeCommand)
      (st : TempState) (c : ℚ),
      (∀ cmd ∈ l1, validCmd cmd) →
      bad.type = .G → bad.code = some c → c ∉ VALID_G_CODES →
      runCmds tools (l1 ++ bad :: l2) st = .error { gcode := c, line := bad.line } := by
  intro l1
  induction l1 with
  | nil =>
      intro bad l2 st c _ htype hcode hc
      simp only [List.nil_append, runCmds]
      rw [stepCmd_error_of_invalid tools st bad c htype hcode hc]
  | cons d ds ih =>
      intro bad l2 st c hval htype hcode hc
      simp only [List.cons_append, runCmds]
      rw [stepCmd_ok_of_valid tools st d (hval d (by simp))]
      exact ih bad l2 (applyCmd tools st d) c
        (fun cmd hm => hval cmd (by simp [hm])) htype hcode hc

/-- A take up to `k ≥ i` splits at position `i`. -/
lemma take_succ_decomp (cmds : List GCodeCommand) (i k : ℕ)
    (hik : i ≤ k) (hi : i < cmds.length) :
    ∃ l2, cmds.take (k + 1) = cmds.take i ++ (cmds.get ⟨i, hi⟩) :: l2 := by
  refine ⟨(cmds.drop (i + 1)).take (k - i), ?_⟩
  conv_lhs => rw [show k + 1 = i + (k - i + 1) from by omega]
  rw [List.take_add]
  congr 1
  rw [List.drop_eq_getElem_cons hi, List.take_succ_cons, List.get_eq_getElem]

/-- The tool is only ever reassigned to a positive integer. -/
lemma applyTool_tool (st : TempState) (cmd : GCodeCommand) :
    (applyTool st cmd).tool = st.tool ∨
    ∃ n : ℕ, 0 < n ∧ (applyTool st cmd).tool = (n : ℚ) := by
  unfold applyTool
  rcases htype : cmd.type <;> rcases hcode : cmd.code with _ | c
  all_goals try exact Or.inl rfl
  dsimp only
  split_ifs with h0 hpos
  · right
    refine ⟨(toolIdOfCode c).toNat, by omega, ?_⟩
    show ((toolIdOfCode c : ℤ) : ℚ) = (((toolIdOfCode c).toNat : ℕ) : ℚ)
    have h := Int.toNat_of_nonneg hpos.le
    exact_mod_cast congrArg (fun z : ℤ => (z : ℚ)) h.symm
  · exact Or.inl rfl
  · exact Or.inl rfl

lemma applyCmd_tool (tools : List ToolConfig) (st : TempState) (cmd : GCodeCommand) :
    (applyCmd tools st cmd).tool = st.tool ∨
    ∃ n : ℕ, 0 < n ∧ (applyCmd tools st cmd).tool = (n : ℚ) := by
  unfold applyCmd
  have h1 := (applyModalG_fields tools st cmd).2.2.2.1
  have h2 := (applyAxes_fields (applyModalG tools st cmd) cmd).2.1
  have h3 := (applySpeed_fields (applyAxes (applyModalG tools st cmd) cmd) cmd).2.2.1
  have h5 := (applyM_fields (applyTool (applySpeed (applyAxes (applyModalG tools st cmd) cmd) cmd) cmd) cmd).2.2.2.1
  have h6 := (applyPath_fields (applyM (applyTool (applySpeed (applyAxes (applyModalG tools st cmd) cmd) cmd) cmd) cmd) cmd).2.2.2.1
  rw [h6, h5]
  rcases applyTool_tool (applySpeed (applyAxes (applyModalG tools st cmd) cmd) cmd) cmd with h | ⟨n, hn, h⟩
  · left
    rw [h, h3, h2, h1]
  · right
    exact ⟨n, hn, h⟩

/-- The "tool is a positive integer" invariant is preserved by the fold. -/
lemma runCmds_tool_inv (tools : List ToolConfig) :
    ∀ (l : List GCodeCommand) (st st' : TempState),
      runCmds tools l st = .ok st' →
      (∃ n : ℕ, 0 < n ∧ st.tool = (n : ℚ)) →
      ∃ n : ℕ, 0 < n ∧ st'.tool = (n : ℚ) := by
  intro l
  induction l with
  | nil =>
      intro st st' h hinv
      simp only [runCmds] at h
      cases h
      exact hinv
  | cons c cs ih =>
      intro st st' h hinv
      simp only [runCmds] at h
      cases hstep : stepCmd tools st c with
      | error e => rw [hstep] at h; cases h
      | ok st1 =>
          rw [hstep] at h
          have hst1 : st1 = applyCmd tools st c := stepCmd_ok_state tools st c st1 hstep
          refine ih st1 st' h ?_
          rcases applyCmd_tool tools st c with heq | ⟨n, hn, heq⟩
          · obtain ⟨n, hn, htool⟩ := hinv
            exact ⟨n, hn, by rw [hst1, heq, htool]⟩
          · exact ⟨n, hn, by rw [hst1, heq]⟩

/-- The positioning mode used for the axis words of a statement: G90/G91 on
the statement itself take effect first, otherwise the modal mode carries
over. -/
def modeAfter (st : TempState) (cmd : GCodeCommand) : PosMode :=
  if cmd.type = .G ∧ cmd.code = some 90 then .ABS
  else if cmd.type = .G ∧ cmd.code = some 91 then .INC
  else st.positioning

lemma applyModalG_positioning (tools : List ToolConfig) (st : TempState) (cmd : GCodeCommand) :
    (applyModalG tools st cmd).positioning = modeAfter st cmd := by
  unfold applyModalG modeAfter
  repeat' split
  all_goals simp_all

/-- The X axis after the axis words: the positioning mode applies to `X`,
then `U` is added unconditionally. -/
lemma applyAxes_x (st : TempState) (cmd : GCodeCommand) :
    (applyAxes st cmd).x =
      (match getParam cmd.params 'X' with
       | some vx => if st.positioning = .ABS then vx else st.x + vx
       | none => st.x) +
      (match getParam cmd.params 'U' with
       | some vu => vu
       | none => 0) := by
  unfold applyAxes
  rcases hX : getParam cmd.params 'X' <;> rcases hU : getParam cmd.params 'U' <;>
    rcases hZ : getParam cmd.params 'Z' <;> rcases hW : getParam cmd.params 'W' <;>
    simp [hX, hU, hZ, hW]

/-- The Z axis after the axis words: the positioning mode applies to `Z`,
then `W` is added unconditionally. -/
lemma applyAxes_z (st : TempState) (cmd : GCodeCommand) :
    (applyAxes st cmd).z =
      (match getParam cmd.params 'Z' with
       | some vz => if st.positioning = .ABS then vz else st.z + vz
       | none => st.z) +
      (match getParam cmd.params 'W' with
       | some vw => vw
       | none => 0) := by
  unfold applyAxes
  rcases hX : getParam cmd.params 'X' <;> rcases hU : getParam cmd.params 'U' <;>
    rcases hZ : getParam cmd.params 'Z' <;> rcases hW : getParam cmd.params 'W' <;>
    simp [hX, hU, hZ, hW]

/-! ### Parser invariants -/

lemma mem_takeWhile_digit {l : List Char} {c : Char}
    (h : c ∈ l.takeWhile Char.isDigit) : Char.isDigit c = true := by
  induction l with
  | nil => simp [List.takeWhile] at h
  | cons a as ih =>
      by_cases ha : Char.isDigit a
      · rw [List.takeWhile_cons_of_pos ha] at h
        rcases List.mem_cons.mp h with rfl | h
        · exact ha
        · exact ih h
      · rw [List.takeWhile_cons_of_neg ha] at h
        simp at h

lemma takeWhile_digits_self {l : List Char}
    (h : ∀ c ∈ l, Char.isDigit c = true) : l.takeWhile Char.isDigit = l := by
  induction l with
  | nil => simp
  | cons a as ih =>
      rw [List.takeWhile_cons_of_pos (h a (by simp))]
      rw [ih (fun c hc => h c (by simp [hc]))]

lemma dropWhile_digits_nil {l : List Char}
    (h : ∀ c ∈ l, Char.isDigit c = true) : l.dropWhile Char.isDigit = [] := by
  induction l with
  | nil => simp
  | cons a as ih =>
      rw [List.dropWhile_cons_of_pos (h a (by simp))]
      exact ih (fun c hc => h c (by simp [hc]))

lemma takeWhile_digits_append_stop {d r : List Char} {x : Char}
    (hd : ∀ c ∈ d, Char.isDigit c = true) (hx : Char.isDigit x = false) :
    (d ++ x :: r).takeWhile Char.isDigit = d ∧
    (d ++ x :: r).dropWhile Char.isDigit = x :: r := by
  induction d with
  | nil =>
      simp only [List.nil_append]
      rw [List.takeWhile_cons_of_neg (by simp [hx]), List.dropWhile_cons_of_neg (by simp [hx])]
      exact ⟨rfl, rfl⟩
  | cons a as ih =>
      obtain ⟨iht, ihd⟩ := ih (fun c hc => hd c (by simp [hc]))
      constructor
      · rw [List.cons_append, List.takeWhile_cons_of_pos (hd a (by simp)), iht]
      · rw [List.cons_append, List.dropWhile_cons_of_pos (hd a (by simp)), ihd]

lemma stripSign_cons_not_sign (c : Char) (r : List Char) (hc : ¬(c = '-' ∨ c = '+')) :
    stripSign (c :: r) = ([], c :: r) := by
  simp [stripSign, hc]

lemma stripSign_fst (cs : List Char) :
    (stripSign cs).1 = [] ∨ (stripSign cs).1 = ['-'] ∨ (stripSign cs).1 = ['+'] := by
  cases cs with
  | nil => simp [stripSign]
  | cons c r =>
      by_cases h : c = '-' ∨ c = '+'
      · rcases h with rfl | rfl <;> simp [stripSign]
      · simp [stripSign, h]

lemma digit_not_sign {c : Char} (hc : Char.isDigit c = true) : ¬(c = '-' ∨ c = '+') := by
  rintro (rfl | rfl) <;> exact absurd hc (by decide)

/-- `parseFloat` succeeds on `sign? digits` with at least one digit. -/
lemma parseNum_plain (sgn d1 : List Char)
    (hsgn : sgn = [] ∨ sgn = ['-'] ∨ sgn = ['+'])
    (hd1 : d1 ≠ []) (hall : ∀ c ∈ d1, Char.isDigit c = true) :
    (parseNum (sgn ++ d1)).isSome = true := by
  have hstrip : (stripSign (sgn ++ d1)).2 = d1 := by
    rcases hsgn with rfl | rfl | rfl
    · rcases d1 with _ | ⟨c, d1'⟩
      · exact absurd rfl hd1
      · rw [List.nil_append,
          stripSign_cons_not_sign c d1' (digit_not_sign (hall c (by simp)))]
    · simp [stripSign]
    · simp [stripSign]
  simp only [parseNum, hstrip, takeWhile_digits_self hall, dropWhile_digits_nil hall]
  rw [if_neg (by simp), if_neg hd1]
  simp

/-- `parseFloat` succeeds on `sign? digits . digits` with at least one digit
after the point. -/
lemma parseNum_dotted (sgn d1 d2 : List Char)
    (hsgn : sgn = [] ∨ sgn = ['-'] ∨ sgn = ['+'])
    (hd2 : d2 ≠ []) (hall1 : ∀ c ∈ d1, Char.isDigit c = true)
    (hall2 : ∀ c ∈ d2, Char.isDigit c = true) :
    (parseNum (sgn ++ d1 ++ '.' :: d2)).isSome = true := by
  obtain ⟨htake, hdrop⟩ :=
    @takeWhile_digits_append_stop d1 d2 '.' hall1 (show Char.isDigit '.' = false by decide)
  have hstrip : (stripSign (sgn ++ d1 ++ '.' :: d2)).2 = d1 ++ '.' :: d2 := by
    rcases hsgn with rfl | rfl | rfl
    · rcases d1 with _ | ⟨c, d1'⟩
      · simp only [List.nil_append]
        rw [stripSign_cons_not_sign '.' d2 (by rintro (h | h) <;> cases h)]
      · simp only [List.nil_append, List.cons_append]
        rw [stripSign_cons_not_sign c (d1' ++ '.' :: d2)
          (digit_not_sign (hall1 c (by simp)))]
    · simp [stripSign]
    · simp [stripSign]
  simp only [parseNum, hstrip, htake, hdrop, List.tail_cons, takeWhile_digits_self hall2]
  rw [if_pos (by simp), if_neg (by simp [hd2])]
  simp

/-- Every token the regex scan produces has a numeric part `parseFloat`
accepts: a bare letter never yields a token. -/
lemma matchNum_parseNum {cs m r : List Char}
    (h : matchNum cs = some (m, r)) : (parseNum m).isSome = true := by
  simp only [matchNum] at h
  have hsgn := stripSign_fst cs
  have hall1 : ∀ c ∈ (stripSign cs).2.takeWhile Char.isDigit, Char.isDigit c = true :=
    fun c hc => mem_takeWhile_digit hc
  rcases hD : (stripSign cs).2.dropWhile Char.isDigit with _ | ⟨d, cs3⟩
  · rw [hD] at h
    rw [if_neg (by simp)] at h
    by_cases hd1 : (stripSign cs).2.takeWhile Char.isDigit = []
    · rw [if_pos hd1] at h
      exact absurd h (by simp)
    · rw [if_neg hd1] at h
      obtain ⟨hm, -⟩ := Prod.mk.injEq .. ▸ Option.some.inj h
      rw [← hm]
      exact parseNum_plain _ _ hsgn hd1 hall1
  · rw [hD] at h
    by_cases hdot : d = '.'
    · subst hdot
      rw [if_pos (by simp)] at h
      simp only [List.tail_cons] at h
      by_cases hd2 : cs3.takeWhile Char.isDigit = []
      · rw [if_pos hd2] at h
        by_cases hd1 : (stripSign cs).2.takeWhile Char.isDigit = []
        · rw [if_pos hd1] at h
          exact absurd h (by simp)
        · rw [if_neg hd1] at h
          obtain ⟨hm, -⟩ := Prod.mk.injEq .. ▸ Option.some.inj h
          rw [← hm]
          exact parseNum_plain _ _ hsgn hd1 hall1
      · rw [if_neg hd2] at h
        obtain ⟨hm, -⟩ := Prod.mk.injEq .. ▸ Option.some.inj h
        rw [← hm]
        exact parseNum_dotted _ _ _ hsgn hd2 hall1 (fun c hc => mem_takeWhile_digit hc)
    · rw [if_neg (by simp [hdot])] at h
      by_cases hd1 : (stripSign cs).2.takeWhile Char.isDigit = []
      · rw [if_pos hd1] at h
        exact absurd h (by simp)
      · rw [if_neg hd1] at h
        obtain ⟨hm, -⟩ := Prod.mk.injEq .. ▸ Option.some.inj h
        rw [← hm]
        exact parseNum_plain _ _ hsgn hd1 hall1

lemma tokenizeF_sound :
    ∀ (fuel : ℕ) (cs : List Char) (tok : Char × List Char),
      tok ∈ tokenizeF fuel cs → (parseNum tok.2).isSome = true := by
  intro fuel
  induction fuel with
  | zero =>
      intro cs tok h
      simp [tokenizeF] at h
  | succ n ih =>
      intro cs tok h
      cases cs with
      | nil => simp [tokenizeF] at h
      | cons c rest =>
          simp only [tokenizeF] at h
          by_cases hc : 'A' ≤ c ∧ c ≤ 'Z'
          · rw [if_pos hc] at h
            cases hm : matchNum rest with
            | none =>
                rw [hm] at h
                exact ih rest tok h
            | some p =>
                obtain ⟨m, r⟩ := p
                rw [hm] at h
                rcases List.mem_cons.mp h with rfl | h
                · exact matchNum_parseNum hm
                · exact ih r tok h
          · rw [if_neg hc] at h
            exact ih rest tok h

lemma typeOfLetter_cmd (c : Char) :
    typeOfLetter c = .G ∨ typeOfLetter c = .M ∨ typeOfLetter c = .T := by
  unfold typeOfLetter
  split_ifs <;> simp

lemma buildCmds_types :
    ∀ (toks : List (Char × List Char)) (cur : GCodeCommand) (hasType : Bool),
      (cur.type = .G ∨ cur.type = .M ∨ cur.type = .T) →
      ∀ cmd ∈ buildCmds toks cur hasType,
        cmd.type = .G ∨ cmd.type = .M ∨ cmd.type = .T := by
  intro toks
  induction toks with
  | nil =>
      intro cur hasType hcur cmd h
      simp only [buildCmds, List.mem_singleton] at h
      subst h
      exact hcur
  | cons t ts ih =>
      intro cur hasType hcur cmd h
      obtain ⟨letter, num⟩ := t
      simp only [buildCmds] at h
      by_cases hl : cmdLetter letter = true
      · rw [if_pos hl] at h
        cases hasType with
        | true =>
            simp only [if_pos rfl] at h
            rcases List.mem_cons.mp h with rfl | h
            · exact hcur
            · exact ih _ true (typeOfLetter_cmd letter) cmd h
        | false =>
            simp only [Bool.false_eq_true, if_neg] at h
            exact ih _ true (typeOfLetter_cmd letter) cmd h
      · rw [if_neg hl] at h
        exact ih { cur with params := setParam cur.params letter ((parseNum num).getD 0) }
          hasType hcur cmd h

lemma parseLine_types (idx : ℕ) (raw : List Char) (cmd : GCodeCommand)
    (h : cmd ∈ parseLine idx raw) :
    cmd.type = .G ∨ cmd.type = .M ∨ cmd.type = .T := by
  simp only [parseLine] at h
  split at h
  · simp at h
  · split at h
    · simp at h
    · exact buildCmds_types _ _ false (Or.inl rfl) cmd h

lemma parseGCode_types (text : String) (cmd : GCodeCommand)
    (h : cmd ∈ parseGCode text) :
    cmd.type = .G ∨ cmd.type = .M ∨ cmd.type = .T := by
  unfold parseGCode at h
  rw [List.mem_flatten] at h
  obtain ⟨l, hl, hcmd⟩ := h
  rw [List.mem_map] at hl
  obtain ⟨p, -, rfl⟩ := hl
  exact parseLine_types p.1 p.2 cmd hcmd

/-! ### Claims -/

/-- C1 counterexample: with home `(100, 50)` and current position `(40, -30)`
(set by a `G1 X40 Z-30`), the claim predicts that `G28 U0` returns X to 100
and pushes two rapid PathPoints.  The interpreter instead leaves the
position at `(40, -30)` (the `U0` increment is applied like on any other
statement) and pushes no point for the G28 at all — the path keeps exactly
the single cut point of the G1; a bare `G28` behaves the same. -/
theorem c1_counterexample :
    runCmds TOOLS
      [{ type := .G, code := some 1, params := [('X', 40), ('Z', -30)], raw := "", line := 1 },
       { type := .G, code := some 28, params := [('U', 0)], raw := "", line := 2 }] initTemp =
      .ok { initTemp with
        x := 40
        z := -30
        path := [{ x := 40, z := -30, type := .cut }] } ∧
    runCmds TOOLS
      [{ type := .G, code := some 1, params := [('X', 40), ('Z', -30)], raw := "", line := 1 },
       { type := .G, code := some 28, params := [], raw := "", line := 2 }] initTemp =
      .ok { initTemp with
        x := 40
        z := -30
        path := [{ x := 40, z := -30, type := .cut }] } ∧
    (runCmds TOOLS
      [{ type := .G, code := some 1, params := [('X', 40), ('Z', -30)], raw := "", line := 1 },
       { type := .G, code := some 28, params := [('U', 0)], raw := "", line := 2 }] initTemp).map
      (fun t => t.x) ≠ .ok 100 ∧
    (runCmds TOOLS
      [{ type := .G, code := some 1, params := [('X', 40), ('Z', -30)], raw := "", line := 1 },
       { type := .G, code := some 28, params := [], raw := "", line := 2 }] initTemp).map
      (fun t => (t.x, t.z)) ≠ .ok (100, 50) := by
  refine ⟨?_, by decide, ?_, by decide⟩
  · simp [runCmds, stepCmd, applyCmd, applyModalG, applyAxes, applySpeed, applyTool, applyM,
      applyPath, getParam, VALID_G_CODES, jsOrNeg1, initTemp, motionType]
  · simp [runCmds, stepCmd, applyCmd, applyModalG, applyAxes, applySpeed, applyTool, applyM,
      applyPath, getParam, VALID_G_CODES, jsOrNeg1, initTemp, motionType, Except.map]

/-- C1 (amended): a G28 statement receives no special home-return handling:
its whole effect is the generic axis-word application (X/Z per positioning
mode, U/W as increments) followed by the generic S-word application; in
particular it never appends a PathPoint and never moves an axis to the home
position. -/
theorem c1_g28_no_home_return (tools : List ToolConfig) (st : TempState)
    (cmd : GCodeCommand) (htype : cmd.type = .G) (hcode : cmd.code = some 28) :
    applyCmd tools st cmd = applySpeed (applyAxes st cmd) cmd ∧
    (applyCmd tools st cmd).path = st.path := by
  have hmodal : applyModalG tools st cmd = st := by
    norm_num [applyModalG, htype, hcode]
  have htool : ∀ s : TempState, applyTool s cmd = s := by
    intro s
    simp [applyTool, htype]
  have hm : ∀ s : TempState, applyM s cmd = s := by
    intro s
    simp [applyM, htype]
  have hcond : ¬(cmd.type = .G ∧ jsOrNeg1 cmd.code ∈ ([0, 1, 2, 3, 32, 33] : List ℚ)) := by
    norm_num [jsOrNeg1, hcode]
  have hpath : ∀ s : TempState, applyPath s cmd = s := by
    intro s
    unfold applyPath
    rw [if_neg hcond]
  have hmain : applyCmd tools st cmd = applySpeed (applyAxes st cmd) cmd := by
    unfold applyCmd
    rw [hmodal, htool, hm, hpath]
  refine ⟨hmain, ?_⟩
  rw [hmain, (applySpeed_fields (applyAxes st cmd) cmd).2.2.2.2.2.2.2.2,
    (applyAxes_fields st cmd).2.2.2.2.2.2.2]

/-- C1 witness: the amended statement applied to a concrete `G28 U0`. -/
theorem c1_witness :
    applyCmd TOOLS initTemp
        { type := .G, code := some 28, params := [('U', 0)], raw := "", line := 1 } =
      applySpeed
        (applyAxes initTemp
          { type := .G, code := some 28, params := [('U', 0)], raw := "", line := 1 })
        { type := .G, code := some 28, params := [('U', 0)], raw := "", line := 1 } ∧
    (applyCmd TOOLS initTemp
        { type := .G, code := some 28, params := [('U', 0)], raw := "", line := 1 }).path =
      initTemp.path :=
  c1_g28_no_home_return TOOLS initTemp
    { type := .G, code := some 28, params := [('U', 0)], raw := "", line := 1 } rfl rfl

/-- C2: a replayed `G0 X50 Z2` moves the position but appends NO PathPoint,
because `cmd.code || -1` evaluates to `-1` when the code is `0` (JavaScript
treats `0` as falsy), so the push condition
`[0,1,2,3,32,33].includes(cmd.code || -1)` never fires for G0; an otherwise
identical `G1` does append its cut point.  This contradicts the claim (and
the renderer's rapid-segment drawing, the `0` the code itself lists in the
push set, and the earlier revisions of the interpreter, which all expect G0
to append a rapid point). -/
theorem c2_g0_appends_no_pathpoint :
    runCmds TOOLS
      [{ type := .G, code := some 0, params := [('X', 50), ('Z', 2)], raw := "", line := 1 }]
      initTemp = .ok { initTemp with x := 50, z := 2 } ∧
    runCmds TOOLS
      [{ type := .G, code := some 1, params := [('X', 50), ('Z', 2)], raw := "", line := 1 }]
      initTemp = .ok { initTemp with
        x := 50
        z := 2
        path := [{ x := 50, z := 2, type := .cut }] } := by
  constructor <;> decide

/-- C3 counterexample: with `G42` active, the active tool 1 having
`noseRadius = 0.8 > 0`, the cut `G1 X40 Z-20` appends a PathPoint whose
`cx`/`cz` fields are absent (`none`) — no compensated contact point is
computed, contrary to the claim's formula. -/
theorem c3_counterexample :
    runCmds TOOLS
      [{ type := .G, code := some 42, params := [], raw := "", line := 1 },
       { type := .G, code := some 1, params := [('X', 40), ('Z', -20)], raw := "", line := 2 }]
      initTemp =
      .ok { initTemp with
        x := 40
        z := -20
        radiusComp := .RIGHT
        path := [{ x := 40, z := -20, cx := none, cz := none, type := .cut }] } ∧
    (runCmds TOOLS
      [{ type := .G, code := some 42, params := [], raw := "", line := 1 },
       { type := .G, code := some 1, params := [('X', 40), ('Z', -20)], raw := "", line := 2 }]
      initTemp).map (fun t => t.path.map (fun p => (p.cx.isSome, p.cz.isSome))) =
      .ok [(false, false)] := by
  constructor <;> decide

/-- C3 (amended): the interpreter never records compensated coordinates:
every PathPoint of every successful replay has absent `cx` and `cz`, no
matter the radius-compensation mode or the active tool's nose radius. -/
theorem c3_no_compensated_point (tools : List ToolConfig) (cmds : List GCodeCommand)
    (st' : TempState) (h : runCmds tools cmds initTemp = .ok st') :
    ∀ pt ∈ st'.path, pt.cx = none ∧ pt.cz = none := by
  obtain ⟨suffix, hsuf, hpts⟩ := runCmds_path_extends tools cmds initTemp st' h
  intro pt hpt
  rw [hsuf, show initTemp.path = [] from rfl, List.nil_append] at hpt
  exact hpts pt hpt

/-- C3 witness: the amended statement applied to the counterexample replay. -/
theorem c3_witness :
    ({ x := 40, z := -20, cx := none, cz := none, type := .cut } : PathPoint).cx = none ∧
    ({ x := 40, z := -20, cx := none, cz := none, type := .cut } : PathPoint).cz = none :=
  c3_no_compensated_point TOOLS
    [{ type := .G, code := some 42, params := [], raw := "", line := 1 },
     { type := .G, code := some 1, params := [('X', 40), ('Z', -20)], raw := "", line := 2 }]
    { initTemp with
      x := 40
      z := -20
      radiusComp := .RIGHT
      path := [{ x := 40, z := -20, cx := none, cz := none, type := .cut }] }
    (by decide)
    { x := 40, z := -20, cx := none, cz := none, type := .cut }
    (by decide)

/-- C4: if the statement at index `i` is a G-statement whose defined code is
outside `VALID_G_CODES` and every statement before it is valid, then the
replay for every cursor `k ≥ i` halts with the syntax error naming that code
and that statement's 1-based source line, and no state is produced (the
result is the error, not a MachineState). -/
theorem c4_unsupported_code_halts (tools : List ToolConfig) (cmds : List GCodeCommand)
    (i k : ℕ) (c : ℚ) (hik : i ≤ k) (hi : i < cmds.length)
    (htype : (cmds.get ⟨i, hi⟩).type = .G)
    (hcode : (cmds.get ⟨i, hi⟩).code = some c)
    (hc : c ∉ VALID_G_CODES)
    (hval : ∀ cmd ∈ cmds.take i, validCmd cmd) :
    runCmds tools (cmds.take (k + 1)) initTemp =
      .error { gcode := c, line := (cmds.get ⟨i, hi⟩).line } := by
  obtain ⟨l2, hdec⟩ := take_succ_decomp cmds i k hik hi
  rw [hdec]
  exact runCmds_error_prefix tools (cmds.take i) (cmds.get ⟨i, hi⟩) l2 initTemp c
    hval htype hcode hc

/-- C4 witness: a one-statement program `G999` halts with
`SyntaxError{code 999, line 5}` at cursor 0. -/
theorem c4_witness :
    runCmds TOOLS
      (([{ type := .G, code := some 999, params := [], raw := "", line := 5 }] :
        List GCodeCommand).take (0 + 1)) initTemp =
      .error { gcode := 999, line := 5 } :=
  c4_unsupported_code_halts TOOLS
    [{ type := .G, code := some 999, params := [], raw := "", line := 5 }]
    0 0 999 (by decide) (by decide) (by decide) (by decide) (by decide) (by simp)

/-- C5: parsing and replaying the statement `T0101` sets `activeTool` to 10,
not 1: the parser stores the tool word as the number 101 (the leading zero
is lost), and the interpreter takes the first two characters of `"101"`,
giving 10.  `T3` yields 3 as the claim says.  The tool table, the comments
of the earlier interpreter revision (`T0101 -> ID 1`) and the lessons all
pair `T0101` with tool id 1, which the code never selects. -/
theorem c5_t0101_selects_tool_10 :
    (interpret .RUNNING ⟨.STOP, 0⟩ TOOLS (parseGCode "T0101") 0).map
      (Except.map (fun s => s.tool)) = some (.ok 10) ∧
    (interpret .RUNNING ⟨.STOP, 0⟩ TOOLS (parseGCode "T3") 0).map
      (Except.map (fun s => s.tool)) = some (.ok 3) := by
  constructor <;> decide

/-- C6: for every replayed statement, `U`/`W` are applied as unconditional
increments after the positioning mode has been applied to `X`/`Z` (the mode
being the modal one, updated first by a G90/G91 on the same statement): the
final X of the step is `apply-mode-to-X plus U` and the final Z is
`apply-mode-to-Z plus W`; in particular under `G90` the statement
`G01 X40 U5` ends at X = 45. -/
theorem c6_u_w_always_incremental (tools : List ToolConfig) (st : TempState)
    (cmd : GCodeCommand) :
    ((applyCmd tools st cmd).x =
      (match getParam cmd.params 'X' with
       | some vx => if modeAfter st cmd = .ABS then vx else st.x + vx
       | none => st.x) +
      (match getParam cmd.params 'U' with
       | some vu => vu
       | none => 0)) ∧
    ((applyCmd tools st cmd).z =
      (match getParam cmd.params 'Z' with
       | some vz => if modeAfter st cmd = .ABS then vz else st.z + vz
       | none => st.z) +
      (match getParam cmd.params 'W' with
       | some vw => vw
       | none => 0)) ∧
    (runCmds TOOLS
      [{ type := .G, code := some 90, params := [], raw := "", line := 1 },
       { type := .G, code := some 1, params := [('X', 40), ('U', 5)], raw := "", line := 2 }]
      initTemp).map (fun t => t.x) = .ok 45 := by
  refine ⟨?_, ?_, ?_⟩
  · have hchain : (applyCmd tools st cmd).x = (applyAxes (applyModalG tools st cmd) cmd).x := by
      unfold applyCmd
      rw [(applyPath_fields _ _).1, (applyM_fields _ _).1, (applyTool_fields _ _).1,
        (applySpeed_fields _ _).1]
    rw [hchain, applyAxes_x, applyModalG_positioning, (applyModalG_fields tools st cmd).1]
  · have hchain : (applyCmd tools st cmd).z = (applyAxes (applyModalG tools st cmd) cmd).z := by
      unfold applyCmd
      rw [(applyPath_fields _ _).2.1, (applyM_fields _ _).2.1, (applyTool_fields _ _).2.1,
        (applySpeed_fields _ _).2.1]
    rw [hchain, applyAxes_z, applyModalG_positioning, (applyModalG_fields tools st cmd).2.1]
  · simp [runCmds, stepCmd, applyCmd, applyModalG, applyAxes, applySpeed, applyTool, applyM,
      applyPath, getParam, VALID_G_CODES, jsOrNeg1, initTemp, motionType, Except.map]
    norm_num

/-- C7 counterexample: two consecutive `G0` moves produce an EMPTY path at
both cursors 0 and 1, so the path at the smaller cursor is not a strict
prefix of the path at the larger one even though a G0 move lies between
them. -/
theorem c7_counterexample :
    (runCmds TOOLS
      (([{ type := .G, code := some 0, params := [('X', 10)], raw := "", line := 1 },
         { type := .G, code := some 0, params := [('X', 20)], raw := "", line := 2 }] :
        List GCodeCommand).take (0 + 1)) initTemp).map (fun t => t.path.length) = .ok 0 ∧
    (runCmds TOOLS
      (([{ type := .G, code := some 0, params := [('X', 10)], raw := "", line := 1 },
         { type := .G, code := some 0, params := [('X', 20)], raw := "", line := 2 }] :
        List GCodeCommand).take (1 + 1)) initTemp).map (fun t => t.path.length) = .ok 0 ∧
    (runCmds TOOLS
      (([{ type := .G, code := some 0, params := [('X', 10)], raw := "", line := 1 },
         { type := .G, code := some 0, params := [('X', 20)], raw := "", line := 2 }] :
        List GCodeCommand).take (0 + 1)) initTemp).map (fun t => t.path) =
    (runCmds TOOLS
      (([{ type := .G, code := some 0, params := [('X', 10)], raw := "", line := 1 },
         { type := .G, code := some 0, params := [('X', 20)], raw := "", line := 2 }] :
        List GCodeCommand).take (1 + 1)) initTemp).map (fun t => t.path) := by
  refine ⟨by decide, by decide, by decide⟩

/-- C7 (amended): for cursors `k ≤ k'` over the same program, when the
replay up to `k'` succeeds the replay up to `k` succeeds too and its path is
a (not necessarily strict) prefix of the longer replay's path; the prefix is
strict exactly when some statement replayed strictly between the two cursors
appends a point, i.e. is a G-statement whose `code || -1` lies in
{0,1,2,3,32,33} (so code in {1,2,3,32,33} — G0 appends nothing). -/
theorem c7_path_prefix_monotone (tools : List ToolConfig) (cmds : List GCodeCommand)
    (k k' : ℕ) (st' : TempState) (hkk' : k ≤ k')
    (hrun : runCmds tools (cmds.take (k' + 1)) initTemp = .ok st') :
    ∃ st, runCmds tools (cmds.take (k + 1)) initTemp = .ok st ∧
      (∃ suffix, st'.path = st.path ++ suffix) ∧
      ((∃ c ∈ (cmds.take (k' + 1)).drop (k + 1), appendsPoint c) ↔
        st.path.length < st'.path.length) := by
  have hsplit : cmds.take (k' + 1) =
      cmds.take (k + 1) ++ (cmds.take (k' + 1)).drop (k + 1) := by
    conv_lhs => rw [← List.take_append_drop (k + 1) (cmds.take (k' + 1))]
    congr 1
    rw [List.take_take, Nat.min_eq_left (by omega)]
  rw [hsplit, runCmds_append] at hrun
  cases hrunk : runCmds tools (cmds.take (k + 1)) initTemp with
  | error e => rw [hrunk] at hrun; cases hrun
  | ok st =>
      rw [hrunk] at hrun
      refine ⟨st, rfl, ?_, ?_⟩
      · obtain ⟨suffix, hsuf, -⟩ :=
          runCmds_path_extends tools ((cmds.take (k' + 1)).drop (k + 1)) st st' hrun
        exact ⟨suffix, hsuf⟩
      · constructor
        · intro hex
          exact runCmds_path_grows tools ((cmds.take (k' + 1)).drop (k + 1)) st st' hrun hex
        · intro hlt
          by_contra hno
          push_neg at hno
          have hconst := runCmds_path_const tools ((cmds.take (k' + 1)).drop (k + 1))
            st st' hrun hno
          rw [hconst] at hlt
          omega

/-- C7 witness: the amended statement applied to a two-statement `G1`
program at cursors 0 and 1. -/
theorem c7_witness :
    ∃ st, runCmds TOOLS
        (([{ type := .G, code := some 1, params := [('X', 10)], raw := "", line := 1 },
           { type := .G, code := some 1, params := [('X', 20)], raw := "", line := 2 }] :
          List GCodeCommand).take (0 + 1)) initTemp = .ok st ∧
      (∃ suffix, ({ initTemp with
          x := 20
          path := [{ x := 10, z := 50, type := .cut },
                   { x := 20, z := 50, type := .cut }] } : TempState).path =
        st.path ++ suffix) ∧
      ((∃ c ∈ (([{ type := .G, code := some 1, params := [('X', 10)], raw := "", line := 1 },
                  { type := .G, code := some 1, params := [('X', 20)], raw := "", line := 2 }] :
                 List GCodeCommand).take (1 + 1)).drop (0 + 1), appendsPoint c) ↔
        st.path.length <
          ({ initTemp with
             x := 20
             path := [{ x := 10, z := 50, type := .cut },
                      { x := 20, z := 50, type := .cut }] } : TempState).path.length) :=
  c7_path_prefix_monotone TOOLS
    [{ type := .G, code := some 1, params := [('X', 10)], raw := "", line := 1 },
     { type := .G, code := some 1, params := [('X', 20)], raw := "", line := 2 }]
    0 1
    { initTemp with
      x := 20
      path := [{ x := 10, z := 50, type := .cut },
               { x := 20, z := 50, type := .cut }] }
    (by decide) (by decide)

/-- C8: in IDLE mode the interpreter effect bypasses the fold entirely — the
result is independent of the program and cursor — and reflects the manual
spindle overrides directly together with the fixed home position `(100, 50)`
and an empty path; in particular manual CW/1000 yields
`spindleDirection = CW` and `spindleSpeed = 1000`. -/
theorem c8_idle_reflects_manual (manual : ManualSpindle) (tools : List ToolConfig)
    (cmds : List GCodeCommand) (cursor : ℕ) :
    interpret .IDLE manual tools cmds cursor = some (.ok (idleState manual)) ∧
    (idleState manual).spindleDirection = manual.dir ∧
    (idleState manual).spindleSpeed = (if manual.dir ≠ .STOP then manual.speed else 0) ∧
    (idleState manual).x = 100 ∧ (idleState manual).z = 50 ∧
    (idleState manual).path = [] ∧
    (idleState ⟨.CW, 1000⟩).spindleDirection = .CW ∧
    (idleState ⟨.CW, 1000⟩).spindleSpeed = 1000 := by
  refine ⟨?_, rfl, rfl, rfl, rfl, rfl, rfl, by decide⟩
  simp [interpret]

/-- C9: `activeTool` starts every replay at 1 and stays a positive integer
throughout: every successful fold from a state whose tool is a positive
integer ends (and, applied to any prefix, passes through) states whose tool
is a positive integer, because a tool statement reassigns it only when the
extracted id is strictly positive. -/
theorem c9_active_tool_positive :
    initTemp.tool = 1 ∧
    ∀ (tools : List ToolConfig) (cmds : List GCodeCommand) (st st' : TempState),
      runCmds tools cmds st = .ok st' →
      (∃ n : ℕ, 0 < n ∧ st.tool = (n : ℚ)) →
      ∃ n : ℕ, 0 < n ∧ st'.tool = (n : ℚ) :=
  ⟨rfl, fun tools cmds st st' h hinv => runCmds_tool_inv tools cmds st st' h hinv⟩

/-- C9 witness: the invariant applied to a concrete `T0101` replay. -/
theorem c9_witness :
    ∃ n : ℕ, 0 < n ∧ ({ initTemp with tool := 10 } : TempState).tool = (n : ℚ) :=
  c9_active_tool_positive.2 TOOLS
    [{ type := .T, code := some 101, params := [], raw := "T0101", line := 1 }]
    initTemp { initTemp with tool := 10 } (by decide) ⟨1, by decide, by decide⟩

/-- C10: every command `parseGCode` emits has type G, M or T (never S, F or
COMMENT), and every numeric part the token scan produces is accepted by
`parseFloat` — a bare letter with no digits yields no token at all, so no
value-less or NaN parameter is ever stored. -/
theorem c10_parser_invariants :
    (∀ (text : String) (cmd : GCodeCommand), cmd ∈ parseGCode text →
      cmd.type = .G ∨ cmd.type = .M ∨ cmd.type = .T) ∧
    (∀ (cs : List Char) (tok : Char × List Char), tok ∈ tokenize cs →
      (parseNum tok.2).isSome = true) :=
  ⟨fun text cmd h => parseGCode_types text cmd h,
   fun cs tok h => tokenizeF_sound cs.length cs tok h⟩

/-- C10 witness: both parts applied to concrete inputs, including the
multi-command line `G01 X10 M03`. -/
theorem c10_witness :
    (({ type := .G, code := some 1, params := [('X', 10)], raw := "G01 X10 M03", line := 1 } :
        GCodeCommand).type = .G ∨
      ({ type := .G, code := some 1, params := [('X', 10)], raw := "G01 X10 M03", line := 1 } :
        GCodeCommand).type = .M ∨
      ({ type := .G, code := some 1, params := [('X', 10)], raw := "G01 X10 M03", line := 1 } :
        GCodeCommand).type = .T) ∧
    (parseNum (('X', ['1', '0']) : Char × List Char).2).isSome = true :=
  ⟨c10_parser_invariants.1 "G01 X10 M03"
      { type := .G, code := some 1, params := [('X', 10)], raw := "G01 X10 M03", line := 1 }
      (by decide),
   c10_parser_invariants.2 "X10".data ('X', ['1', '0']) (by decide)⟩
